import Mathlib

/-!
Shallow embedding of the portfolio-aggregation core of the
Team-TechnoSquad stock-portfolio application.

The embedded functions are `loadPortfolioMetrics` (the holdings
aggregation in the dashboard component) and `calculatePortfolioValue`
(the simpler quantity-only aggregation in the portfolios page).

JavaScript numbers are modelled as exact rationals (`ℚ`); a division
whose denominator is zero produces `NaN` or `±Infinity` in JavaScript,
which the model represents as `none : Option ℚ` via `jsDiv`.  The
JavaScript `Map` (insertion-ordered, `set` on an existing key updates
in place, `delete` removes the entry) is modelled by the
insertion-ordered association list operations `mapGet`, `mapSet`,
`mapDelete`.
-/

namespace TS

/-- Stock reference data (the fields the aggregation reads). -/
structure Stock where
  symbol : String
  name : String
  sector : String
  deriving DecidableEq, Repr

/-- Transaction type: `'buy' | 'sell'`. -/
inductive TxnType where
  | buy
  | sell
  deriving DecidableEq, Repr

/-- A transaction record as seen by the aggregation: the stock document
fetched for `stock_id` is `none` when `stockDoc.exists()` is false
(unresolved stock reference). -/
structure Txn where
  stockId : String
  txnType : TxnType
  quantity : ℚ
  price : ℚ
  fees : ℚ
  stock : Option Stock
  deriving DecidableEq, Repr

/-- JavaScript division: finite quotient, or `none` for the non-finite
results `NaN` (0/0) and `±Infinity` (x/0, x ≠ 0). -/
def jsDiv (a b : ℚ) : Option ℚ :=
  if b = 0 then none else some (a / b)

/-- A derived holding.  `averagePrice`, `unrealizedGainPercent` and
`weight` are produced by JavaScript divisions and can be non-finite,
hence `Option ℚ`. -/
structure Holding where
  stock : Stock
  quantity : ℚ
  averagePrice : Option ℚ
  currentPrice : ℚ
  totalCost : ℚ
  currentValue : ℚ
  unrealizedGain : ℚ
  unrealizedGainPercent : Option ℚ
  weight : Option ℚ
  deriving DecidableEq, Repr

/-- One sector-allocation row. -/
structure SectorAlloc where
  sector : String
  value : ℚ
  percentage : Option ℚ
  deriving DecidableEq, Repr

/-- The metrics object passed to `setMetrics`. -/
structure PortfolioMetrics where
  totalValue : ℚ
  totalCost : ℚ
  totalGain : ℚ
  totalGainPercent : Option ℚ
  cagr : ℚ
  volatility : ℚ
  sharpeRatio : ℚ
  maxDrawdown : ℚ
  beta : ℚ
  holdings : List Holding
  sectorAllocation : List SectorAlloc
  deriving DecidableEq, Repr

/-- `Map.get`: first (unique) entry with the key. -/
def mapGet {α : Type} : List (String × α) → String → Option α
  | [], _ => none
  | (k', v') :: rest, k => if k' = k then some v' else mapGet rest k

/-- `Map.set`: update in place when the key exists (insertion order is
kept), otherwise append at the end. -/
def mapSet {α : Type} : List (String × α) → String → α → List (String × α)
  | [], k, v => [(k, v)]
  | (k', v') :: rest, k, v =>
      if k' = k then (k, v) :: rest else (k', v') :: mapSet rest k v

/-- `Map.delete`: drop the entry with the key. -/
def mapDelete {α : Type} (m : List (String × α)) (k : String) :
    List (String × α) :=
  m.filter (fun p => p.1 ≠ k)

/-- The body of the transaction loop in `loadPortfolioMetrics`:
one step of the fold over the (date-ordered) transaction list.  The
state is the holdings map together with the running `totalCost`. -/
def processTxn (acc : List (String × Holding) × ℚ) (txn : Txn) :
    List (String × Holding) × ℚ :=
  match txn.stock with
  | none => acc
  | some stock =>
    let holdings := acc.1
    let totalCost := acc.2
    let existingHolding := mapGet holdings stock.symbol
    match txn.txnType, existingHolding with
    | TxnType.buy, some h =>
        let cost := txn.quantity * txn.price + txn.fees
        let newQuantity := h.quantity + txn.quantity
        let newTotalCost := h.totalCost + cost
        (mapSet holdings stock.symbol
          { h with
            quantity := newQuantity
            totalCost := newTotalCost
            averagePrice := jsDiv newTotalCost newQuantity },
         totalCost + cost)
    | TxnType.buy, none =>
        let cost := txn.quantity * txn.price + txn.fees
        (mapSet holdings stock.symbol
          { stock := stock
            quantity := txn.quantity
            averagePrice := some txn.price
            currentPrice := txn.price
            totalCost := cost
            currentValue := txn.quantity * txn.price
            unrealizedGain := 0
            unrealizedGainPercent := some 0
            weight := some 0 },
         totalCost + cost)
    | TxnType.sell, some h =>
        let newQuantity := h.quantity - txn.quantity
        if newQuantity ≤ 0 then
          (mapDelete holdings stock.symbol, totalCost)
        else
          (mapSet holdings stock.symbol { h with quantity := newQuantity },
           totalCost)
    | TxnType.sell, none => acc

/-- The post-loop `forEach` that fills in gain, gain percent and
weight.  `((currentValue - totalCost) / totalCost) * 100` and
`(currentValue / totalValue) * 100` with a zero denominator are
non-finite in JavaScript, hence `Option.map`. -/
def finalizeHolding (totalValue : ℚ) (h : Holding) : Holding :=
  { h with
    unrealizedGain := h.currentValue - h.totalCost
    unrealizedGainPercent :=
      (jsDiv (h.currentValue - h.totalCost) h.totalCost).map (· * 100)
    weight := (jsDiv h.currentValue totalValue).map (· * 100) }

/-- `holding.stock.sector || 'Unknown'` (the empty string is falsy). -/
def sectorOf (h : Holding) : String :=
  if h.stock.sector = "" then "Unknown" else h.stock.sector

/-- The aggregation routine of the dashboard: fold the date-ordered
transaction list into holdings and the metrics record.  Transactions
whose stock reference does not resolve are skipped by `processTxn`
(the `continue`). -/
def loadPortfolioMetrics (txns : List Txn) : PortfolioMetrics :=
  let st := txns.foldl processTxn ([], 0)
  let totalCost := st.2
  let holdingsArray := st.1.map Prod.snd
  let totalValue := holdingsArray.foldl (fun sum h => sum + h.currentValue) 0
  let finalHoldings := holdingsArray.map (finalizeHolding totalValue)
  let sectorMap := finalHoldings.foldl
    (fun m h =>
      mapSet m (sectorOf h) ((mapGet m (sectorOf h)).getD 0 + h.currentValue))
    []
  let sectorAllocation := sectorMap.map
    (fun p => SectorAlloc.mk p.1 p.2 ((jsDiv p.2 totalValue).map (· * 100)))
  { totalValue := totalValue
    totalCost := totalCost
    totalGain := totalValue - totalCost
    totalGainPercent := (jsDiv (totalValue - totalCost) totalCost).map (· * 100)
    cagr := 0
    volatility := 0
    sharpeRatio := 0
    maxDrawdown := 0
    beta := 0
    holdings := finalHoldings
    sectorAllocation := sectorAllocation }

/-- Output row of `calculatePortfolioValue` in the portfolios page. -/
structure CalcHolding where
  stockId : String
  quantity : ℚ
  symbol : String
  name : String
  deriving DecidableEq, Repr

/-- Intermediate per-key state of `calculatePortfolioValue`. -/
structure CalcEntry where
  quantity : ℚ
  symbol : String
  name : String
  deriving DecidableEq, Repr

/-- `calculatePortfolioValue` from the portfolios page: net quantity
per `stock_id`, keeping only strictly positive positions. -/
def calculatePortfolioValue (txns : List Txn) : List CalcHolding :=
  let holdings := txns.foldl
    (fun m txn =>
      let current := (mapGet m txn.stockId).getD
        { quantity := 0
          symbol := ((txn.stock.map Stock.symbol).getD "")
          name := ((txn.stock.map Stock.name).getD "") }
      let current :=
        match txn.txnType with
        | TxnType.buy => { current with quantity := current.quantity + txn.quantity }
        | TxnType.sell => { current with quantity := current.quantity - txn.quantity }
      mapSet m txn.stockId current)
    ([] : List (String × CalcEntry))
  (holdings.filter (fun p => 0 < p.2.quantity)).map
    (fun p => CalcHolding.mk p.1 p.2.quantity p.2.symbol p.2.name)

/-- The buy-side cost a transaction contributes to the running
`totalCost` accumulator (zero for sells and for transactions whose
stock reference did not resolve). -/
def buyCost (t : Txn) : ℚ :=
  match t.stock, t.txnType with
  | some _, TxnType.buy => t.quantity * t.price + t.fees
  | _, _ => 0

/-- A transaction that is actually processed as a buy: its stock
reference resolved and its type is `'buy'`. -/
def processedBuy (t : Txn) : Bool :=
  t.stock.isSome &&
    (match t.txnType with | TxnType.buy => true | TxnType.sell => false)

lemma mapGet_mem {α : Type} {m : List (String × α)} {k : String} {v : α}
    (h : mapGet m k = some v) : (k, v) ∈ m := by
  induction m with
  | nil => simp [mapGet] at h
  | cons p rest ih =>
    rcases p with ⟨k', v'⟩
    by_cases hk : k' = k
    · subst hk
      simp [mapGet] at h
      simp [h]
    · simp [mapGet, hk] at h
      exact List.mem_cons_of_mem _ (ih h)

lemma mem_mapSet {α : Type} {m : List (String × α)} {k : String} {v : α}
    {p : String × α} (h : p ∈ mapSet m k v) : p = (k, v) ∨ p ∈ m := by
  induction m with
  | nil => simp [mapSet] at h; simp [h]
  | cons q rest ih =>
    rcases q with ⟨k', v'⟩
    by_cases hk : k' = k
    · subst hk
      simp [mapSet] at h
      rcases h with h | h
      · exact Or.inl h
      · exact Or.inr (List.mem_cons_of_mem _ h)
    · simp [mapSet, hk] at h
      rcases h with h | h
      · exact Or.inr (by simp [h])
      · rcases ih h with h' | h'
        · exact Or.inl h'
        · exact Or.inr (List.mem_cons_of_mem _ h')

lemma mem_mapDelete {α : Type} {m : List (String × α)} {k : String}
    {p : String × α} (h : p ∈ mapDelete m k) : p ∈ m :=
  List.mem_of_mem_filter h

lemma processTxn_snd (acc : List (String × Holding) × ℚ) (t : Txn) :
    (processTxn acc t).2 = acc.2 + buyCost t := by
  rcases acc with ⟨m, c⟩
  cases hs : t.stock with
  | none => simp [processTxn, buyCost, hs]
  | some s =>
    cases ht : t.txnType with
    | buy =>
      cases hE : mapGet m s.symbol with
      | none => simp [processTxn, buyCost, hs, ht, hE]
      | some h => simp [processTxn, buyCost, hs, ht, hE]
    | sell =>
      cases hE : mapGet m s.symbol with
      | none => simp [processTxn, buyCost, hs, ht, hE]
      | some h =>
        simp only [processTxn, buyCost, hs, ht, hE]
        split <;> simp

lemma foldl_processTxn_snd (txns : List Txn)
    (acc : List (String × Holding) × ℚ) :
    (txns.foldl processTxn acc).2 = acc.2 + (txns.map buyCost).sum := by
  induction txns generalizing acc with
  | nil => simp
  | cons t rest ih =>
    rw [List.foldl_cons, ih, processTxn_snd]
    simp [add_assoc]

lemma buyCost_sum_eq (txns : List Txn) :
    (txns.map buyCost).sum
      = ((txns.filter processedBuy).map
          (fun t => t.quantity * t.price + t.fees)).sum := by
  induction txns with
  | nil => simp
  | cons t rest ih =>
    by_cases hp : processedBuy t
    · have hb : buyCost t = t.quantity * t.price + t.fees := by
        rcases t with ⟨i, ty, q, p, f, st⟩
        cases st <;> cases ty <;> simp_all [buyCost, processedBuy]
      simp [List.filter_cons, hp, hb, ih]
    · have hb : buyCost t = 0 := by
        rcases t with ⟨i, ty, q, p, f, st⟩
        cases st <;> cases ty <;> simp_all [buyCost, processedBuy]
      simp [List.filter_cons, hp, hb, ih]

lemma finalizeHolding_currentValue (tv : ℚ) (h : Holding) :
    (finalizeHolding tv h).currentValue = h.currentValue := rfl

lemma foldl_add_currentValue (l : List Holding) (a : ℚ) :
    l.foldl (fun sum h => sum + h.currentValue) a
      = a + (l.map Holding.currentValue).sum := by
  induction l generalizing a with
  | nil => simp
  | cons h rest ih => simp [List.foldl_cons, ih, add_assoc]

/-- The holding `h` was created by transaction `t`: a resolved buy for
`h`'s stock whose price and quantity are frozen into `currentPrice`
and `currentValue`. -/
def madeBy (t : Txn) (h : Holding) : Prop :=
  t.txnType = TxnType.buy ∧ t.stock = some h.stock ∧
    h.currentPrice = t.price ∧ h.currentValue = t.quantity * t.price

/-- The fields of a holding that no update after creation ever
touches. -/
def sameProj (a b : Holding) : Prop :=
  a.stock = b.stock ∧ a.currentPrice = b.currentPrice ∧
    a.currentValue = b.currentValue

lemma madeBy_of_sameProj {t : Txn} {a b : Holding} (h : madeBy t a)
    (hs : sameProj a b) : madeBy t b := by
  rcases h with ⟨h1, h2, h3, h4⟩
  rcases hs with ⟨s1, s2, s3⟩
  exact ⟨h1, s1 ▸ h2, s2 ▸ h3, s3 ▸ h4⟩

lemma sameProj_trans {a b c : Holding} (h1 : sameProj a b)
    (h2 : sameProj b c) : sameProj a c := by
  rcases h1 with ⟨x1, x2, x3⟩
  rcases h2 with ⟨y1, y2, y3⟩
  exact ⟨x1.trans y1, x2.trans y2, x3.trans y3⟩

lemma processTxn_creation {m : List (String × Holding)} {c : ℚ} {t : Txn}
    {p : String × Holding} (hp : p ∈ (processTxn (m, c) t).1) :
    (∃ q ∈ m, sameProj q.2 p.2) ∨ madeBy t p.2 := by
  cases hs : t.stock with
  | none =>
    rw [processTxn, hs] at hp
    exact Or.inl ⟨p, hp, ⟨rfl, rfl, rfl⟩⟩
  | some s =>
    cases ht : t.txnType with
    | buy =>
      cases hE : mapGet m s.symbol with
      | some h =>
        rw [processTxn, hs] at hp
        simp only [ht, hE] at hp
        rcases mem_mapSet hp with h' | h'
        · exact Or.inl ⟨(s.symbol, h), mapGet_mem hE, by
            rw [h']; exact ⟨rfl, rfl, rfl⟩⟩
        · exact Or.inl ⟨p, h', ⟨rfl, rfl, rfl⟩⟩
      | none =>
        rw [processTxn, hs] at hp
        simp only [ht, hE] at hp
        rcases mem_mapSet hp with h' | h'
        · refine Or.inr ?_
          rw [h']
          exact ⟨ht, hs, rfl, rfl⟩
        · exact Or.inl ⟨p, h', ⟨rfl, rfl, rfl⟩⟩
    | sell =>
      cases hE : mapGet m s.symbol with
      | some h =>
        rw [processTxn, hs] at hp
        simp only [ht, hE] at hp
        by_cases hz : h.quantity - t.quantity ≤ 0
        · rw [if_pos hz] at hp
          exact Or.inl ⟨p, mem_mapDelete hp, ⟨rfl, rfl, rfl⟩⟩
        · rw [if_neg hz] at hp
          rcases mem_mapSet hp with h' | h'
          · exact Or.inl ⟨(s.symbol, h), mapGet_mem hE, by
              rw [h']; exact ⟨rfl, rfl, rfl⟩⟩
          · exact Or.inl ⟨p, h', ⟨rfl, rfl, rfl⟩⟩
      | none =>
        rw [processTxn, hs] at hp
        simp only [ht, hE] at hp
        exact Or.inl ⟨p, hp, ⟨rfl, rfl, rfl⟩⟩

lemma foldl_processTxn_creation (txns : List Txn) :
    ∀ (m : List (String × Holding)) (c : ℚ) (p : String × Holding),
      p ∈ (txns.foldl processTxn (m, c)).1 →
      (∃ q ∈ m, sameProj q.2 p.2) ∨ (∃ t ∈ txns, madeBy t p.2) := by
  induction txns with
  | nil =>
    intro m c p hp
    exact Or.inl ⟨p, hp, ⟨rfl, rfl, rfl⟩⟩
  | cons t rest ih =>
    intro m c p hp
    rw [List.foldl_cons, ← Prod.mk.eta (p := processTxn (m, c) t)] at hp
    rcases ih _ _ _ hp with ⟨q, hq, hqp⟩ | ⟨t', ht', hmade⟩
    · rcases processTxn_creation hq with ⟨q', hq', hqq⟩ | hmade
      · exact Or.inl ⟨q', hq', sameProj_trans hqq hqp⟩
      · exact Or.inr ⟨t, List.mem_cons_self _ _, madeBy_of_sameProj hmade hqp⟩
    · exact Or.inr ⟨t', List.mem_cons_of_mem _ ht', hmade⟩

lemma processTxn_pos {m : List (String × Holding)} {c : ℚ} {t : Txn}
    (hq : 0 < t.quantity) (hm : ∀ p ∈ m, 0 < p.2.quantity) :
    ∀ p ∈ (processTxn (m, c) t).1, 0 < p.2.quantity := by
  intro p hp
  cases hs : t.stock with
  | none =>
    rw [processTxn, hs] at hp
    exact hm p hp
  | some s =>
    cases ht : t.txnType with
    | buy =>
      cases hE : mapGet m s.symbol with
      | some h =>
        rw [processTxn, hs] at hp
        simp only [ht, hE] at hp
        rcases mem_mapSet hp with h' | h'
        · rw [h']
          have := hm _ (mapGet_mem hE)
          exact add_pos this hq
        · exact hm p h'
      | none =>
        rw [processTxn, hs] at hp
        simp only [ht, hE] at hp
        rcases mem_mapSet hp with h' | h'
        · rw [h']; exact hq
        · exact hm p h'
    | sell =>
      cases hE : mapGet m s.symbol with
      | some h =>
        rw [processTxn, hs] at hp
        simp only [ht, hE] at hp
        by_cases hz : h.quantity - t.quantity ≤ 0
        · rw [if_pos hz] at hp
          exact hm p (mem_mapDelete hp)
        · rw [if_neg hz] at hp
          rcases mem_mapSet hp with h' | h'
          · rw [h']
            exact lt_of_not_le hz
          · exact hm p h'
      | none =>
        rw [processTxn, hs] at hp
        simp only [ht, hE] at hp
        exact hm p hp

lemma foldl_processTxn_pos (txns : List Txn)
    (htx : ∀ t ∈ txns, 0 < t.quantity) :
    ∀ (m : List (String × Holding)) (c : ℚ),
      (∀ p ∈ m, 0 < p.2.quantity) →
      ∀ p ∈ (txns.foldl processTxn (m, c)).1, 0 < p.2.quantity := by
  induction txns with
  | nil => intro m c hm p hp; exact hm p hp
  | cons t rest ih =>
    intro m c hm p hp
    rw [List.foldl_cons, ← Prod.mk.eta (p := processTxn (m, c) t)] at hp
    exact ih (fun t' ht' => htx t' (List.mem_cons_of_mem _ ht')) _ _
      (processTxn_pos (htx t (List.mem_cons_self _ _)) hm) p hp

/-- Example stock used to instantiate claims on concrete inputs. -/
def aaplStock : Stock :=
  { symbol := "AAPL", name := "Apple Inc", sector := "Technology" }

/-- A resolved buy transaction. -/
def mkBuy (s : Stock) (q p f : ℚ) : Txn :=
  { stockId := s.symbol, txnType := TxnType.buy, quantity := q, price := p,
    fees := f, stock := some s }

/-- A resolved sell transaction. -/
def mkSell (s : Stock) (q p f : ℚ) : Txn :=
  { stockId := s.symbol, txnType := TxnType.sell, quantity := q, price := p,
    fees := f, stock := some s }

/-- A transaction whose `stock_id` resolves to no stock document. -/
def ghostTxn : Txn :=
  { stockId := "GHOST", txnType := TxnType.buy, quantity := 3, price := 7,
    fees := 1, stock := none }

/-- Two buys of the same stock at the same price. -/
def exC1 : List Txn := [mkBuy aaplStock 10 100 0, mkBuy aaplStock 5 100 0]

/-- The single-transaction input of spec Scenario A. -/
def exC2 : List Txn := [mkBuy aaplStock 10 100 5]

/-- The holding `loadPortfolioMetrics exC2` produces. -/
def exC2Holding : Holding :=
  { stock := aaplStock, quantity := 10, averagePrice := some 100,
    currentPrice := 100, totalCost := 1005, currentValue := 1000,
    unrealizedGain := -5, unrealizedGainPercent := some (-100 / 201),
    weight := some 100 }

/-- Two buys of the same stock at different prices. -/
def exC3 : List Txn := [mkBuy aaplStock 10 100 0, mkBuy aaplStock 5 200 0]

/-- The price of the last processed transaction for a symbol
(formalizing the claim's phrase "price of the last processed
transaction for that symbol"). -/
def lastPriceFor (txns : List Txn) (sym : String) : Option ℚ :=
  ((txns.filter (fun t => (t.stock.map Stock.symbol) == some sym)).getLast?).map
    Txn.price

/-- C1 counterexample: with two buys of AAPL (10 then 5 units at price
100), the aggregation's totalValue is 1000 (the creation-time current
value of the single holding), but the sum over holdings of
quantity × current price is 15 × 100 = 1500, because `currentValue` is
frozen when the holding is created and not updated by later buys. -/
theorem C1_counterexample :
    (loadPortfolioMetrics exC1).totalValue
      ≠ ((loadPortfolioMetrics exC1).holdings.map
          (fun h => h.quantity * h.currentPrice)).sum := by
  norm_num [loadPortfolioMetrics, processTxn, mapGet, mapSet, mapDelete,
    jsDiv, finalizeHolding, sectorOf, exC1, mkBuy, aaplStock]

/-- C1 (amended): after each aggregation run, totalValue equals the sum
over all holdings in the result of the holding's `currentValue` field
(which is fixed at creation as the creating buy's quantity × price, and
is in general different from quantity × current price). -/
theorem C1_totalValue_eq_sum_currentValue (txns : List Txn) :
    (loadPortfolioMetrics txns).totalValue
      = ((loadPortfolioMetrics txns).holdings.map Holding.currentValue).sum := by
  simp only [loadPortfolioMetrics]
  rw [foldl_add_currentValue, zero_add]
  simp only [List.map_map]
  rfl

/-- C5 evidence: a transaction whose stock reference cannot be resolved
is skipped by the `continue` with no signal of any kind: the
aggregation's entire output on a list containing only such a
transaction is identical to its output on the empty list, and the
output type carries no warning or error channel. -/
theorem C5_silent_drop :
    loadPortfolioMetrics [ghostTxn] = loadPortfolioMetrics [] := rfl

/-- C6: the returned totalCost is exactly the sum of
quantity × price + fees over the buy transactions that are processed
(those whose stock reference resolves); sell transactions contribute
nothing and never decrease it. -/
theorem C6_totalCost_eq_buy_sum (txns : List Txn) :
    (loadPortfolioMetrics txns).totalCost
      = ((txns.filter processedBuy).map
          (fun t => t.quantity * t.price + t.fees)).sum := by
  simp only [loadPortfolioMetrics]
  rw [foldl_processTxn_snd, buyCost_sum_eq]
  norm_num

/-- C9: the empty transaction list yields an empty holdings collection,
totalValue 0, totalCost 0 and an empty sectorAllocation; the
computation is total, so no exception is raised. -/
theorem C9_empty_input :
    (loadPortfolioMetrics []).holdings = [] ∧
    (loadPortfolioMetrics []).totalValue = 0 ∧
    (loadPortfolioMetrics []).totalCost = 0 ∧
    (loadPortfolioMetrics []).sectorAllocation = [] :=
  ⟨rfl, rfl, rfl, rfl⟩

/-- C2 counterexample: on [{buy, AAPL, qty 10, price 100, fees 5}] the
aggregation's holding has averagePrice 100 (the creating transaction's
price, fees ignored), not 100.5 = totalCost ÷ quantity as the claim
states. -/
theorem C2_counterexample :
    (loadPortfolioMetrics exC2).holdings.map Holding.averagePrice
      ≠ [some (201 / 2)] := by
  norm_num [loadPortfolioMetrics, processTxn, mapGet, mapSet, mapDelete,
    jsDiv, finalizeHolding, sectorOf, exC2, mkBuy, aaplStock]

/-- C2 (amended): on [{buy, AAPL, qty 10, price 100, fees 5}] the
holding has quantity 10, averagePrice 100 (the creating buy's price —
creation does not divide cost including fees by quantity), totalCost
1005, currentValue 1000, and unrealizedGain −5. -/
theorem C2_scenarioA :
    (loadPortfolioMetrics exC2).holdings.map Holding.quantity = [10] ∧
    (loadPortfolioMetrics exC2).holdings.map Holding.averagePrice = [some 100] ∧
    (loadPortfolioMetrics exC2).holdings.map Holding.totalCost = [1005] ∧
    (loadPortfolioMetrics exC2).holdings.map Holding.currentValue = [1000] ∧
    (loadPortfolioMetrics exC2).holdings.map Holding.unrealizedGain = [-5] := by
  norm_num [loadPortfolioMetrics, processTxn, mapGet, mapSet, mapDelete,
    jsDiv, finalizeHolding, sectorOf, exC2, mkBuy, aaplStock]

/-- C3 counterexample: after [buy AAPL 10 @ 100, buy AAPL 5 @ 200] the
holding's currentPrice is 100 (frozen at creation), while the last
processed transaction for AAPL has price 200, and currentValue is
1000 ≠ 15 × 100 = quantity × currentPrice. -/
theorem C3_counterexample :
    ¬ (∀ h ∈ (loadPortfolioMetrics exC3).holdings,
        some h.currentPrice = lastPriceFor exC3 h.stock.symbol ∧
        h.currentValue = h.quantity * h.currentPrice) := by
  intro hall
  have hh : (loadPortfolioMetrics exC3).holdings
      = [{ stock := aaplStock, quantity := 15, averagePrice := some (400 / 3),
           currentPrice := 100, totalCost := 2000, currentValue := 1000,
           unrealizedGain := -1000, unrealizedGainPercent := some (-50),
           weight := some 100 }] := by
    norm_num [loadPortfolioMetrics, processTxn, mapGet, mapSet, mapDelete,
      jsDiv, finalizeHolding, sectorOf, exC3, mkBuy, aaplStock]
  rw [hh] at hall
  simp only [List.mem_singleton, forall_eq] at hall
  have h1 := hall.1
  rw [show lastPriceFor exC3
        ({ stock := aaplStock, quantity := 15, averagePrice := some (400 / 3),
           currentPrice := 100, totalCost := 2000, currentValue := 1000,
           unrealizedGain := -1000, unrealizedGainPercent := some (-50),
           weight := some 100 } : Holding).stock.symbol = some 200 from by
      norm_num [lastPriceFor, exC3, mkBuy, aaplStock]] at h1
  simp at h1

/-- C3 (amended): every holding in the result carries a currentPrice
and currentValue frozen at creation: there is a processed buy
transaction t for the holding's stock with currentPrice = t.price and
currentValue = t.quantity × t.price (the buy that created the holding);
they are not updated to the last processed transaction's price. -/
theorem C3_currentPrice_from_creating_buy (txns : List Txn) :
    ∀ h ∈ (loadPortfolioMetrics txns).holdings,
      ∃ t ∈ txns, t.txnType = TxnType.buy ∧ t.stock = some h.stock ∧
        h.currentPrice = t.price ∧ h.currentValue = t.quantity * t.price := by
  intro h hh
  simp only [loadPortfolioMetrics] at hh
  obtain ⟨a, ha, rfl⟩ := List.mem_map.mp hh
  obtain ⟨p, hp, rfl⟩ := List.mem_map.mp ha
  rcases foldl_processTxn_creation txns [] 0 p hp with ⟨q, hq, _⟩ | ⟨t, ht, hmade⟩
  · exact absurd hq (List.not_mem_nil q)
  · exact ⟨t, ht, hmade.1, hmade.2.1, hmade.2.2.1, hmade.2.2.2⟩

/-- Witness for the amended C3 at the concrete input exC2. -/
theorem C3_currentPrice_witness :
    ∃ t ∈ exC2, t.txnType = TxnType.buy ∧ t.stock = some exC2Holding.stock ∧
      exC2Holding.currentPrice = t.price ∧
      exC2Holding.currentValue = t.quantity * t.price := by
  refine C3_currentPrice_from_creating_buy exC2 exC2Holding ?_
  have hh : (loadPortfolioMetrics exC2).holdings = [exC2Holding] := by
    norm_num [loadPortfolioMetrics, processTxn, mapGet, mapSet, mapDelete,
      jsDiv, finalizeHolding, sectorOf, exC2, exC2Holding, mkBuy, aaplStock]
  rw [hh]
  exact List.mem_singleton.mpr rfl

/-- C4 evidence: division-by-zero cases are not mapped to sentinels —
non-finite values are produced.  On the empty list totalGainPercent is
the non-finite (0−0)/0 × 100 (modelled as `none`); on a single buy at
price 0 the holding's unrealizedGainPercent (totalCost 0) and weight
(totalValue 0) are likewise non-finite. -/
theorem C4_nonfinite_propagated :
    (loadPortfolioMetrics []).totalGainPercent = none ∧
    (loadPortfolioMetrics [mkBuy aaplStock 1 0 0]).holdings.map
      Holding.unrealizedGainPercent = [none] ∧
    (loadPortfolioMetrics [mkBuy aaplStock 1 0 0]).holdings.map
      Holding.weight = [none] := by
  norm_num [loadPortfolioMetrics, processTxn, mapGet, mapSet, mapDelete,
    jsDiv, finalizeHolding, sectorOf, mkBuy, aaplStock]

/-- C7: processing a sell with resolved stock s and quantity q: with no
existing holding for s.symbol it is a no-op; with an existing holding h
it reduces the quantity by q, removes the holding entirely when the
resulting quantity is ≤ 0 (including oversell, no error raised), and
otherwise only the quantity field changes — averagePrice and totalCost
are carried over unrecomputed; the running totalCost accumulator is
untouched in every case. -/
theorem C7_sell_semantics (m : List (String × Holding)) (c : ℚ) (t : Txn)
    (s : Stock) (ht : t.txnType = TxnType.sell) (hs : t.stock = some s) :
    (mapGet m s.symbol = none → processTxn (m, c) t = (m, c)) ∧
    ∀ h, mapGet m s.symbol = some h →
      (h.quantity - t.quantity ≤ 0 →
        processTxn (m, c) t = (mapDelete m s.symbol, c)) ∧
      (0 < h.quantity - t.quantity →
        processTxn (m, c) t
          = (mapSet m s.symbol { h with quantity := h.quantity - t.quantity },
             c)) := by
  constructor
  · intro hE
    simp [processTxn, hs, ht, hE]
  · intro h hE
    constructor
    · intro hz
      simp only [processTxn, hs, ht, hE]
      rw [if_pos hz]
    · intro hz
      simp only [processTxn, hs, ht, hE]
      rw [if_neg (not_le.mpr hz)]

/-- Witness for C7 at a concrete oversell: selling 99 units against a
10-unit holding removes the holding and leaves totalCost alone. -/
theorem C7_sell_witness :
    processTxn ([("AAPL", exC2Holding)], 5) (mkSell aaplStock 99 210 0)
      = (mapDelete [("AAPL", exC2Holding)] "AAPL", 5) := by
  refine ((C7_sell_semantics [("AAPL", exC2Holding)] 5
      (mkSell aaplStock 99 210 0) aaplStock rfl rfl).2 exC2Holding ?_).1 ?_
  · simp [mapGet, aaplStock]
  · norm_num [exC2Holding, mkSell, aaplStock]

/-- C8: a buy of quantity q at price p with fees f on a symbol that
already has a holding h updates it to quantity = h.quantity + q,
totalCost = h.totalCost + (q·p + f), averagePrice = new total cost ÷
new quantity (a JavaScript division), and adds q·p + f to the running
totalCost accumulator. -/
theorem C8_buy_existing (m : List (String × Holding)) (c : ℚ) (t : Txn)
    (s : Stock) (h : Holding) (ht : t.txnType = TxnType.buy)
    (hs : t.stock = some s) (hE : mapGet m s.symbol = some h) :
    processTxn (m, c) t
      = (mapSet m s.symbol
          { h with
            quantity := h.quantity + t.quantity
            totalCost := h.totalCost + (t.quantity * t.price + t.fees)
            averagePrice :=
              jsDiv (h.totalCost + (t.quantity * t.price + t.fees))
                (h.quantity + t.quantity) },
         c + (t.quantity * t.price + t.fees)) := by
  simp [processTxn, hs, ht, hE]

/-- Witness for C8: buying 5 more units at 200 with fees 2 against the
10-unit AAPL holding. -/
theorem C8_buy_witness :
    processTxn ([("AAPL", exC2Holding)], 5) (mkBuy aaplStock 5 200 2)
      = (mapSet [("AAPL", exC2Holding)] "AAPL"
          { exC2Holding with
            quantity := exC2Holding.quantity + 5
            totalCost := exC2Holding.totalCost + (5 * 200 + 2)
            averagePrice :=
              jsDiv (exC2Holding.totalCost + (5 * 200 + 2))
                (exC2Holding.quantity + 5) },
         5 + (5 * 200 + 2)) := by
  exact C8_buy_existing [("AAPL", exC2Holding)] 5 (mkBuy aaplStock 5 200 2)
    aaplStock exC2Holding rfl rfl (by simp [mapGet, aaplStock])

/-- C10: when every transaction quantity is positive, every holding in
the dashboard aggregation's output has strictly positive quantity, and
so does every row returned by the portfolios page's
calculatePortfolioValue. -/
theorem C10_quantities_positive (txns : List Txn)
    (hq : ∀ t ∈ txns, 0 < t.quantity) :
    (∀ h ∈ (loadPortfolioMetrics txns).holdings, 0 < h.quantity) ∧
    (∀ e ∈ calculatePortfolioValue txns, 0 < e.quantity) := by
  constructor
  · intro h hh
    simp only [loadPortfolioMetrics] at hh
    obtain ⟨a, ha, rfl⟩ := List.mem_map.mp hh
    obtain ⟨p, hp, rfl⟩ := List.mem_map.mp ha
    exact foldl_processTxn_pos txns hq [] 0 (by simp) p hp
  · intro e he
    simp only [calculatePortfolioValue] at he
    obtain ⟨p, hp, rfl⟩ := List.mem_map.mp he
    have := (List.mem_filter.mp hp).2
    simpa using this

/-- Witness for C10 at the concrete input exC2. -/
theorem C10_quantities_witness :
    (∀ h ∈ (loadPortfolioMetrics exC2).holdings, 0 < h.quantity) ∧
    (∀ e ∈ calculatePortfolioValue exC2, 0 < e.quantity) :=
  C10_quantities_positive exC2 (by norm_num [exC2, mkBuy, aaplStock])

end TS
